import Mathlib

/-!
Verification development for the inter-market analyzer of the
`quantum_trading_system` repository (`src/analysis/intermarket.py`,
class `InterMarketAnalyzer`).

Embedding conventions:

* The external price provider `get_historical_data` is modelled as a
  function `String → Fetched α`: the constructor `Fetched.raises` models a
  call that raises an exception, `Fetched.ok data` models a call returning
  a frame whose `close` column is `data` (empty list = empty frame).  The
  lookback `window` only changes the `period` string handed to the
  provider, so it is absorbed into the fetch function.
* Floating-point numbers are modelled as elements of a linear ordered
  field; the analyzer's pipelines are stated at `α := ℝ`.  The square
  root used inside the Pearson correlation (and `np.std`) is passed as an
  explicit `sqrtFn` argument and instantiated with `Real.sqrt`.
* pandas produces `NaN` where the correlation divisor is zero (constant
  or too-short return series).  In the embedding those entries evaluate
  to `0` through the `x / 0 = 0` convention of Lean fields; theorems
  about such cases state the zero-divisor condition explicitly.
* `pd.DataFrame(price_data)` aligns the per-symbol series on their time
  index.  Series fetched over the same window and interval are assumed to
  share their time index, so the row-wise `dropna` inner join is modelled
  by truncating every series to the common minimum length.
* Python dicts keep the first-insertion key order and keys are unique;
  `dedupKeys` models the key list of `price_data`.
* Timestamp fields (`datetime.now().isoformat()`) are omitted: they are
  wall-clock data with no bearing on any claim.
-/

/-- Outcome of a `get_historical_data` call: the call either raises an
exception or returns a close-price series (possibly empty). -/
inductive Fetched (α : Type) where
  | raises : Fetched α
  | ok : List α → Fetched α

/-- A symbol's data is usable when the fetch succeeded with a non-empty
series (`if not data.empty: price_data[symbol] = data['close']`). -/
def usable {α : Type} : Fetched α → Bool
  | .ok (_ :: _) => true
  | _ => false

/-- Key list of a Python dict built by repeated assignment: first
occurrence of each key, in order. -/
def dedupKeys : List String → List String
  | [] => []
  | s :: rest => s :: (dedupKeys rest).filter (fun t => t ≠ s)

/-- Column lookup in an association table, defaulting to the empty
series outside the table (outside accesses never occur in the code). -/
def lookupD {α : Type} : List (String × List α) → String → List α
  | [], _ => []
  | (k, v) :: rest, s => if k = s then v else lookupD rest s

/-- Concatenation of a list of lists (the rows appended by nested
`for` loops). -/
def concatAll {β : Type} : List (List β) → List β
  | [] => []
  | l :: ls => l ++ concatAll ls

/-- The `price_data` dict of `calculate_correlations`: for each symbol
(first occurrence), the close series when the fetch succeeded non-empty;
a symbol whose fetch raises or returns an empty frame is skipped. -/
def priceData {α : Type} (fetch : String → Fetched α) (symbols : List String) :
    List (String × List α) :=
  (dedupKeys symbols).filterMap fun s =>
    match fetch s with
    | .ok (p :: ps) => some (s, p :: ps)
    | _ => none

/-- Common number of aligned rows of the combined price frame. -/
def minLen {α : Type} : List (String × List α) → ℕ
  | [] => 0
  | p :: rest => (rest.map fun q => q.2.length).foldr Nat.min p.2.length

section Field

variable {α : Type} [LinearOrderedField α]

/-- `pct_change` of one column: `(p_t - p_{t-1}) / p_{t-1}`; the first,
undefined row is dropped (`dropna`). -/
def pctChange (l : List α) : List α :=
  List.zipWith (fun prev cur => (cur - prev) / prev) l l.tail

/-- `returns_data = combined_data.pct_change().dropna()`: every collected
series truncated to the common length, then per-period returns. -/
def returnsTable (fetch : String → Fetched α) (symbols : List String) :
    List (String × List α) :=
  (priceData fetch symbols).map fun p =>
    (p.1, pctChange (p.2.take (minLen (priceData fetch symbols))))

/-- Arithmetic mean of a list (pandas mean; `NaN` on an empty list is
modelled by `0/0 = 0`). -/
def listMean (l : List α) : α := l.sum / (l.length : α)

/-- Deviations from the mean. -/
def demean (l : List α) : List α := l.map fun x => x - listMean l

/-- Sum of products of deviations from the means, the building block of
the Pearson correlation as computed by `pandas.DataFrame.corr`. -/
def sdm (xs ys : List α) : α :=
  (((demean xs).zip (demean ys)).map fun p => p.1 * p.2).sum

/-- Pearson correlation of two aligned return series:
`Σ dx·dy / sqrt (Σ dx² · Σ dy²)`.  Where pandas produces `NaN` (zero
divisor) this evaluates to `0` by the division convention. -/
def pearson (sqrtFn : α → α) (xs ys : List α) : α :=
  sdm xs ys / sqrtFn (sdm xs xs * sdm ys ys)

/-- A correlation matrix: its column labels and its entries, addressed
by row and column label. -/
structure CorrMatrix (α : Type) where
  cols : List String
  entry : String → String → α

/-- `InterMarketAnalyzer.calculate_correlations`: fetch each symbol,
skip failures and empty frames, align, take percentage returns, and
build the pairwise Pearson correlation matrix.  An empty `price_data`
yields the empty matrix (`pd.DataFrame()`). -/
def calculate_correlations (sqrtFn : α → α) (fetch : String → Fetched α)
    (symbols : List String) : CorrMatrix α :=
  { cols := (returnsTable fetch symbols).map Prod.fst
    entry := fun s t =>
      pearson sqrtFn (lookupD (returnsTable fetch symbols) s)
        (lookupD (returnsTable fetch symbols) t) }

/-- Maximum of a pandas Series (junk `0` on the empty series, where
pandas yields `NaN`). -/
def listMax (l : List α) : α :=
  match l with
  | [] => 0
  | x :: xs => xs.foldl max x

/-- Minimum of a pandas Series (junk `0` on the empty series). -/
def listMin (l : List α) : α :=
  match l with
  | [] => 0
  | x :: xs => xs.foldl min x

/-- One record of the `identify_leaders` output. -/
structure LeaderEntry (α : Type) where
  symbol : String
  leadership_score : α
  strong_correlations : ℕ
  avg_correlation : α
  max_correlation : α
  min_correlation : α
deriving DecidableEq

/-- Per-symbol leader record: statistics of column `s` with the row
labelled `s` dropped (`correlations[symbol].drop(symbol)`). -/
def leaderOf (thr : α) (M : CorrMatrix α) (s : String) : LeaderEntry α :=
  { symbol := s
    leadership_score :=
      listMean (((M.cols.filter fun t => t ≠ s).map fun t => M.entry t s).map fun x => |x|)
    strong_correlations :=
      (((M.cols.filter fun t => t ≠ s).map fun t => M.entry t s).filter fun x =>
        decide (thr < |x|)).length
    avg_correlation := listMean ((M.cols.filter fun t => t ≠ s).map fun t => M.entry t s)
    max_correlation := listMax ((M.cols.filter fun t => t ≠ s).map fun t => M.entry t s)
    min_correlation := listMin ((M.cols.filter fun t => t ≠ s).map fun t => M.entry t s) }

/-- The `leaders` list before sorting, in column order. -/
def preLeaders (thr : α) (M : CorrMatrix α) : List (LeaderEntry α) :=
  M.cols.map (leaderOf thr M)

/-- Stable descending insertion by `leadership_score`: an element coming
earlier in the input goes before later elements of equal score, matching
`list.sort(key=..., reverse=True)`. -/
def insertLeader (e : LeaderEntry α) : List (LeaderEntry α) → List (LeaderEntry α)
  | [] => [e]
  | f :: fs =>
    if e.leadership_score < f.leadership_score then f :: insertLeader e fs
    else e :: f :: fs

/-- Stable sort by decreasing `leadership_score`. -/
def sortLeaders : List (LeaderEntry α) → List (LeaderEntry α)
  | [] => []
  | e :: es => insertLeader e (sortLeaders es)

/-- `InterMarketAnalyzer.identify_leaders`. -/
def identify_leaders (thr : α) (M : CorrMatrix α) : List (LeaderEntry α) :=
  sortLeaders (preLeaders thr M)

/-- Placeholder result of `_calculate_volatility_spillover`. -/
structure VolatilitySpillover (α : Type) where
  volatility_transmission : α
  note : String

/-- The stubbed volatility-spillover computation. -/
def volatilitySpillover : VolatilitySpillover α :=
  { volatility_transmission := 0
    note := "Volatility spillover analysis - implementation in progress" }

/-- The `spillover_metrics` record of `detect_spillover`. -/
structure SpilloverReport (α : Type) where
  symbol : String
  total_correlations : ℕ
  strong_spillovers : ℕ
  avg_correlation : α
  max_spillover : α
  spillover_sources : List (String × α)
  volatility_spillover : VolatilitySpillover α

/-- `InterMarketAnalyzer.detect_spillover`.  The default universe
(`config.symbols.ACTIVE_SYMBOLS`) is passed explicitly as
`all_symbols`. -/
def detect_spillover (sqrtFn : α → α) (thr : α) (fetch : String → Fetched α)
    (symbol : String) (all_symbols : List String) :
    Except String (SpilloverReport α) :=
  if (calculate_correlations sqrtFn fetch all_symbols).cols = [] ∨
      symbol ∉ (calculate_correlations sqrtFn fetch all_symbols).cols then
    .error "Données insuffisantes"
  else
    .ok
      { symbol := symbol
        total_correlations :=
          (((calculate_correlations sqrtFn fetch all_symbols).cols.filter fun t =>
            t ≠ symbol).map fun t =>
              (t, (calculate_correlations sqrtFn fetch all_symbols).entry t symbol)).length
        strong_spillovers :=
          ((((calculate_correlations sqrtFn fetch all_symbols).cols.filter fun t =>
            t ≠ symbol).map fun t =>
              (t, (calculate_correlations sqrtFn fetch all_symbols).entry t symbol)).filter
                fun p => decide (thr < |p.2|)).length
        avg_correlation :=
          listMean (((calculate_correlations sqrtFn fetch all_symbols).cols.filter fun t =>
            t ≠ symbol).map fun t =>
              (calculate_correlations sqrtFn fetch all_symbols).entry t symbol)
        max_spillover :=
          listMax (((calculate_correlations sqrtFn fetch all_symbols).cols.filter fun t =>
            t ≠ symbol).map fun t =>
              |(calculate_correlations sqrtFn fetch all_symbols).entry t symbol|)
        spillover_sources :=
          ((((calculate_correlations sqrtFn fetch all_symbols).cols.filter fun t =>
            t ≠ symbol).map fun t =>
              (t, (calculate_correlations sqrtFn fetch all_symbols).entry t symbol)).filter
                fun p => decide (thr < |p.2|))
        volatility_spillover := volatilitySpillover }

/-- `_get_asset_class`: string-pattern classification, first matching
rule wins. -/
def get_asset_class (symbol : String) : String :=
  if symbol.endsWith "=X" then "forex"
  else if symbol = "GC=F" ∨ symbol = "SI=F" ∨ symbol = "PL=F" then "commodity"
  else if symbol.endsWith "-USD" ∨ symbol.endsWith "-USDT" then "crypto"
  else if symbol.startsWith "^" then "index"
  else "equity"

/-- A node of the market network. -/
structure NetNode (α : Type) where
  id : String
  degree : ℤ
  strength : α
  asset_class : String

/-- An edge of the market network. -/
structure NetEdge (α : Type) where
  source : String
  target : String
  weight : α
  type : String

/-- The node list of `get_market_network`: degree counts the whole
column above threshold (self included) minus one, strength is the mean
absolute correlation to the others. -/
def nodesOf (thr : α) (M : CorrMatrix α) : List (NetNode α) :=
  M.cols.map fun s =>
    { id := s
      degree := ((M.cols.filter fun t => decide (thr < |M.entry t s|)).length : ℤ) - 1
      strength :=
        listMean (((M.cols.filter fun t => t ≠ s).map fun t => M.entry t s).map fun x => |x|)
      asset_class := get_asset_class s }

/-- The edge list of `get_market_network`: one directed edge per ordered
pair of distinct symbols whose absolute correlation exceeds the
threshold. -/
def edgesOf (thr : α) (M : CorrMatrix α) : List (NetEdge α) :=
  concatAll (M.cols.map fun s =>
    (M.cols.filter fun t => decide (t ≠ s ∧ thr < |M.entry s t|)).map fun t =>
      { source := s
        target := t
        weight := |M.entry s t|
        type := if 0 < M.entry s t then "positive" else "negative" })

/-- The network structure (metadata flattened, timestamp omitted). -/
structure Network (α : Type) where
  nodes : List (NetNode α)
  edges : List (NetEdge α)
  total_nodes : ℕ
  total_edges : ℕ
  correlation_threshold : α

/-- Nodes plus edges plus metadata. -/
def networkOf (thr : α) (M : CorrMatrix α) : Network α :=
  { nodes := nodesOf thr M
    edges := edgesOf thr M
    total_nodes := (nodesOf thr M).length
    total_edges := (edgesOf thr M).length
    correlation_threshold := thr }

/-- `InterMarketAnalyzer.get_market_network`. -/
def get_market_network (sqrtFn : α → α) (fetch : String → Fetched α)
    (symbols : List String) : Except String (Network α) :=
  if (calculate_correlations sqrtFn fetch symbols).cols = [] then
    .error "Impossible de calculer le réseau"
  else
    .ok (networkOf (3 / 10) (calculate_correlations sqrtFn fetch symbols))

/-- Strictly-upper-triangular positions of a square matrix in row-major
order, as produced by `np.triu_indices_from(values, k=1)`. -/
def upperTriPairs : List String → List (String × String)
  | [] => []
  | c :: rest => (rest.map fun t => (c, t)) ++ upperTriPairs rest

/-- The strictly-upper-triangular entries of the matrix. -/
def upperTri (M : CorrMatrix α) : List α :=
  (upperTriPairs M.cols).map fun p => M.entry p.1 p.2

/-- Population variance (`np.std` squares to this; `ddof = 0`). -/
def pvariance (l : List α) : α := listMean (l.map fun x => (x - listMean l) ^ 2)

/-- The market-regime record. -/
structure RegimeSummary (α : Type) where
  regime : String
  description : String
  avg_correlation : α
  correlation_volatility : α
  symbols_analyzed : ℕ

/-- Regime classification from the matrix: mean and standard deviation
of the strictly-upper-triangular correlations, thresholds 0.7 / 0.4. -/
def regimeOf (sqrtFn : α → α) (n : ℕ) (M : CorrMatrix α) : RegimeSummary α :=
  if 7 / 10 < listMean (upperTri M) then
    { regime := "high_correlation"
      description := "Marché en régime de forte corrélation - risque systémique élevé"
      avg_correlation := listMean (upperTri M)
      correlation_volatility := sqrtFn (pvariance (upperTri M))
      symbols_analyzed := n }
  else if 4 / 10 < listMean (upperTri M) then
    { regime := "moderate_correlation"
      description := "Marché en régime de corrélation modérée"
      avg_correlation := listMean (upperTri M)
      correlation_volatility := sqrtFn (pvariance (upperTri M))
      symbols_analyzed := n }
  else
    { regime := "low_correlation"
      description := "Marché en régime de faible corrélation - opportunités de diversification"
      avg_correlation := listMean (upperTri M)
      correlation_volatility := sqrtFn (pvariance (upperTri M))
      symbols_analyzed := n }

/-- `InterMarketAnalyzer.analyze_market_regime`.  The error-branch string
literal on source line 236 is written with an unescaped apostrophe
(`'Données insuffisantes pour l'analyse de régime'`), which makes the
Python file fail to parse; the string below is the evident intent of
that line. -/
def analyze_market_regime (sqrtFn : α → α) (fetch : String → Fetched α)
    (symbols : List String) : Except String (RegimeSummary α) :=
  if (calculate_correlations sqrtFn fetch symbols).cols = [] then
    .error "Données insuffisantes pour l\x27analyse de régime"
  else
    .ok (regimeOf sqrtFn symbols.length (calculate_correlations sqrtFn fetch symbols))

end Field

/-! ### Basic lemmas about the list helpers -/

lemma dedupKeys_nodup (l : List String) : (dedupKeys l).Nodup := by
  induction l with
  | nil => simp [dedupKeys]
  | cons s rest ih =>
    simp only [dedupKeys, List.nodup_cons]
    refine ⟨?_, ih.filter _⟩
    simp [List.mem_filter]

lemma mem_dedupKeys {x : String} {l : List String} : x ∈ dedupKeys l ↔ x ∈ l := by
  induction l with
  | nil => simp [dedupKeys]
  | cons s rest ih =>
    simp only [dedupKeys, List.mem_cons, List.mem_filter, ih]
    by_cases hx : x = s <;> simp [hx]

lemma priceData_map_fst {α : Type} (fetch : String → Fetched α) (symbols : List String) :
    (priceData fetch symbols).map Prod.fst
      = (dedupKeys symbols).filter fun s => usable (fetch s) := by
  unfold priceData
  induction dedupKeys symbols with
  | nil => rfl
  | cons a l ih =>
    rw [List.filterMap_cons, List.filter_cons]
    rcases h : fetch a with _ | data
    · simpa [usable, h] using ih
    · rcases data with _ | ⟨p, ps⟩
      · simpa [usable, h] using ih
      · simpa [usable, h] using ih

lemma listMean_nil {α : Type} [LinearOrderedField α] : listMean ([] : List α) = 0 := by
  simp [listMean]

lemma listMean_const {α : Type} [LinearOrderedField α] {l : List α} {c : α}
    (hne : l ≠ []) (h : ∀ x ∈ l, x = c) : listMean l = c := by
  have hlen : (l.length : α) ≠ 0 := by
    exact_mod_cast (List.length_pos.mpr hne).ne'
  have hs : l.sum = (l.length : α) * c := by
    rw [List.sum_eq_card_nsmul l c h, nsmul_eq_mul]
  rw [listMean, hs, mul_comm, mul_div_assoc, div_self hlen, mul_one]

lemma listMean_le {α : Type} [LinearOrderedField α] {l : List α} {b : α}
    (hne : l ≠ []) (h : ∀ x ∈ l, x ≤ b) : listMean l ≤ b := by
  have hs : l.sum ≤ l.length • b := List.sum_le_card_nsmul l b h
  have hlen : (0 : α) < (l.length : α) := by
    exact_mod_cast List.length_pos.mpr hne
  rw [listMean, div_le_iff hlen]
  rw [nsmul_eq_mul] at hs
  linarith [hs]

lemma le_listMean {α : Type} [LinearOrderedField α] {l : List α} {b : α}
    (hne : l ≠ []) (h : ∀ x ∈ l, b ≤ x) : b ≤ listMean l := by
  have hs : l.length • b ≤ l.sum := List.card_nsmul_le_sum l b h
  have hlen : (0 : α) < (l.length : α) := by
    exact_mod_cast List.length_pos.mpr hne
  rw [listMean, le_div_iff hlen]
  rw [nsmul_eq_mul] at hs
  linarith [hs]

lemma listMean_nonneg {α : Type} [LinearOrderedField α] {l : List α}
    (h : ∀ x ∈ l, 0 ≤ x) : 0 ≤ listMean l := by
  rcases eq_or_ne l [] with rfl | hne
  · simp [listMean]
  · exact le_listMean hne h

lemma abs_list_sum_le {α : Type} [LinearOrderedField α] (l : List α) :
    |l.sum| ≤ (l.map fun x => |x|).sum := by
  induction l with
  | nil => simp
  | cons x xs ih =>
    simp only [List.sum_cons, List.map_cons]
    exact (abs_add _ _).trans (by linarith [ih])

lemma abs_listMean_le {α : Type} [LinearOrderedField α] (l : List α) :
    |listMean l| ≤ listMean (l.map fun x => |x|) := by
  rcases eq_or_ne l [] with rfl | hne
  · simp [listMean]
  · have hlen : (0 : α) < (l.length : α) := by
      exact_mod_cast List.length_pos.mpr hne
    rw [listMean, listMean, List.length_map, abs_div, abs_of_nonneg hlen.le]
    exact (div_le_div_right hlen).mpr (abs_list_sum_le l)

lemma foldl_max_bounds {α : Type} [LinearOrderedField α] :
    ∀ (l : List α) (i : α), i ≤ l.foldl max i ∧ ∀ x ∈ l, x ≤ l.foldl max i := by
  intro l
  induction l with
  | nil => simp
  | cons y ys ih =>
    intro i
    simp only [List.foldl_cons, List.mem_cons]
    constructor
    · exact le_trans (le_max_left i y) (ih (max i y)).1
    · rintro x (rfl | hx)
      · exact le_trans (le_max_right i x) (ih (max i x)).1
      · exact (ih (max i y)).2 x hx

lemma le_listMax {α : Type} [LinearOrderedField α] {l : List α} {x : α}
    (hx : x ∈ l) : x ≤ listMax l := by
  rcases l with _ | ⟨y, ys⟩
  · simp at hx
  · rcases List.mem_cons.mp hx with rfl | hx'
    · simpa [listMax] using (foldl_max_bounds ys x).1
    · exact (foldl_max_bounds ys y).2 x hx'

lemma foldl_min_bounds {α : Type} [LinearOrderedField α] :
    ∀ (l : List α) (i : α), l.foldl min i ≤ i ∧ ∀ x ∈ l, l.foldl min i ≤ x := by
  intro l
  induction l with
  | nil => simp
  | cons y ys ih =>
    intro i
    simp only [List.foldl_cons, List.mem_cons]
    constructor
    · exact le_trans (ih (min i y)).1 (min_le_left i y)
    · rintro x (rfl | hx)
      · exact le_trans (ih (min i x)).1 (min_le_right i x)
      · exact (ih (min i y)).2 x hx

lemma listMin_le {α : Type} [LinearOrderedField α] {l : List α} {x : α}
    (hx : x ∈ l) : listMin l ≤ x := by
  rcases l with _ | ⟨y, ys⟩
  · simp at hx
  · rcases List.mem_cons.mp hx with rfl | hx'
    · simpa [listMin] using (foldl_min_bounds ys x).1
    · exact (foldl_min_bounds ys y).2 x hx'

/-! ### Columns of the computed correlation matrix -/

lemma calculate_cols {α : Type} [LinearOrderedField α] (sqrtFn : α → α)
    (fetch : String → Fetched α) (symbols : List String) :
    (calculate_correlations sqrtFn fetch symbols).cols
      = (dedupKeys symbols).filter fun s => usable (fetch s) := by
  show ((priceData fetch symbols).map fun p =>
      (p.1, pctChange (p.2.take (minLen (priceData fetch symbols))))).map Prod.fst
    = (dedupKeys symbols).filter fun s => usable (fetch s)
  rw [List.map_map, show (Prod.fst ∘ fun p : String × List α =>
      (p.1, pctChange (p.2.take (minLen (priceData fetch symbols))))) = Prod.fst from rfl]
  exact priceData_map_fst fetch symbols

lemma calculate_cols_nodup {α : Type} [LinearOrderedField α] (sqrtFn : α → α)
    (fetch : String → Fetched α) (symbols : List String) :
    (calculate_correlations sqrtFn fetch symbols).cols.Nodup := by
  rw [calculate_cols]
  exact (dedupKeys_nodup symbols).filter _

lemma calculate_cols_eq_nil_iff {α : Type} [LinearOrderedField α] (sqrtFn : α → α)
    (fetch : String → Fetched α) (symbols : List String) :
    (calculate_correlations sqrtFn fetch symbols).cols = []
      ↔ ∀ s ∈ symbols, usable (fetch s) = false := by
  rw [calculate_cols, List.filter_eq_nil_iff]
  constructor
  · intro h s hs
    simpa using h s (mem_dedupKeys.mpr hs)
  · intro h s hs
    simp [h s (mem_dedupKeys.mp hs)]

/-! ### Symmetry and Cauchy-Schwarz facts about the Pearson entries -/

lemma zip_map_mul_comm {α : Type} [LinearOrderedField α] (a : List α) :
    ∀ b : List α, ((a.zip b).map fun p => p.1 * p.2) = ((b.zip a).map fun p => p.1 * p.2) := by
  induction a with
  | nil => intro b; cases b <;> simp
  | cons x xs ih =>
    intro b
    cases b with
    | nil => simp
    | cons y ys => simp [mul_comm, ih ys]

lemma sdm_comm {α : Type} [LinearOrderedField α] (xs ys : List α) :
    sdm xs ys = sdm ys xs := by
  unfold sdm
  rw [zip_map_mul_comm]

lemma pearson_comm {α : Type} [LinearOrderedField α] (sqrtFn : α → α) (xs ys : List α) :
    pearson sqrtFn xs ys = pearson sqrtFn ys xs := by
  unfold pearson
  rw [sdm_comm xs ys, mul_comm (sdm xs xs)]

lemma calculate_entry {α : Type} [LinearOrderedField α] (sqrtFn : α → α)
    (fetch : String → Fetched α) (symbols : List String) (s t : String) :
    (calculate_correlations sqrtFn fetch symbols).entry s t
      = pearson sqrtFn (lookupD (returnsTable fetch symbols) s)
          (lookupD (returnsTable fetch symbols) t) := rfl

lemma calculate_entry_symm {α : Type} [LinearOrderedField α] (sqrtFn : α → α)
    (fetch : String → Fetched α) (symbols : List String) (a b : String) :
    (calculate_correlations sqrtFn fetch symbols).entry a b
      = (calculate_correlations sqrtFn fetch symbols).entry b a :=
  pearson_comm sqrtFn _ _

lemma zip_self_map_mul {α : Type} [LinearOrderedField α] (l : List α) :
    ((l.zip l).map fun p => p.1 * p.2) = l.map fun x => x * x := by
  induction l with
  | nil => simp
  | cons x xs ih => simp [ih]

lemma sum_map_mul_self_nonneg {α : Type} [LinearOrderedField α] (l : List α) :
    0 ≤ (l.map fun x => x * x).sum := by
  apply List.sum_nonneg
  intro x hx
  obtain ⟨y, _, rfl⟩ := List.mem_map.mp hx
  exact mul_self_nonneg y

lemma sdm_self_nonneg {α : Type} [LinearOrderedField α] (xs : List α) :
    0 ≤ sdm xs xs := by
  unfold sdm
  rw [zip_self_map_mul]
  exact sum_map_mul_self_nonneg _

lemma sum_zip_fst_nonneg {α : Type} [LinearOrderedField α] (l : List (α × α)) :
    0 ≤ (l.map fun p => p.1 * p.1).sum := by
  apply List.sum_nonneg
  intro x hx
  obtain ⟨y, _, rfl⟩ := List.mem_map.mp hx
  exact mul_self_nonneg y.1

lemma sum_zip_snd_nonneg {α : Type} [LinearOrderedField α] (l : List (α × α)) :
    0 ≤ (l.map fun p => p.2 * p.2).sum := by
  apply List.sum_nonneg
  intro x hx
  obtain ⟨y, _, rfl⟩ := List.mem_map.mp hx
  exact mul_self_nonneg y.2

lemma zip_map_fst_mul_le {α : Type} [LinearOrderedField α] (a : List α) :
    ∀ b : List α, ((a.zip b).map fun p => p.1 * p.1).sum ≤ (a.map fun x => x * x).sum := by
  induction a with
  | nil => intro b; simp
  | cons x xs ih =>
    intro b
    cases b with
    | nil =>
      simpa using sum_map_mul_self_nonneg (x :: xs)
    | cons y ys =>
      simp only [List.zip_cons_cons, List.map_cons, List.sum_cons]
      linarith [ih ys]

lemma zip_map_snd_mul_le {α : Type} [LinearOrderedField α] (a : List α) :
    ∀ b : List α, ((a.zip b).map fun p => p.2 * p.2).sum ≤ (b.map fun x => x * x).sum := by
  induction a with
  | nil => intro b; simpa using sum_map_mul_self_nonneg b
  | cons x xs ih =>
    intro b
    cases b with
    | nil => simp
    | cons y ys =>
      simp only [List.zip_cons_cons, List.map_cons, List.sum_cons]
      linarith [ih ys]

lemma list_cauchy_schwarz {α : Type} [LinearOrderedField α] (l : List (α × α)) :
    ((l.map fun p => p.1 * p.2).sum) ^ 2
      ≤ ((l.map fun p => p.1 * p.1).sum) * ((l.map fun p => p.2 * p.2).sum) := by
  induction l with
  | nil => simp
  | cons p ps ih =>
    simp only [List.map_cons, List.sum_cons]
    have hA : 0 ≤ (ps.map fun p => p.1 * p.1).sum := sum_zip_fst_nonneg ps
    have hB : 0 ≤ (ps.map fun p => p.2 * p.2).sum := sum_zip_snd_nonneg ps
    set a := p.1
    set b := p.2
    set S := (ps.map fun p => p.1 * p.2).sum
    set A := (ps.map fun p => p.1 * p.1).sum
    set B := (ps.map fun p => p.2 * p.2).sum
    rcases eq_or_lt_of_le hB with hB0 | hBpos
    · have hS : S = 0 := by nlinarith [sq_nonneg S]
      rw [hS, ← hB0]
      nlinarith [mul_nonneg hA (mul_self_nonneg b)]
    · nlinarith [sq_nonneg (a * B - b * S), mul_nonneg (mul_self_nonneg b) (sub_nonneg.mpr ih),
        mul_nonneg hBpos.le (sub_nonneg.mpr ih)]

lemma sdm_sq_le {α : Type} [LinearOrderedField α] (xs ys : List α) :
    sdm xs ys ^ 2 ≤ sdm xs xs * sdm ys ys := by
  have h1 := list_cauchy_schwarz ((demean xs).zip (demean ys))
  have h2 := zip_map_fst_mul_le (demean xs) (demean ys)
  have h3 := zip_map_snd_mul_le (demean xs) (demean ys)
  have hxx : sdm xs xs = ((demean xs).map fun x => x * x).sum := by
    unfold sdm; rw [zip_self_map_mul]
  have hyy : sdm ys ys = ((demean ys).map fun x => x * x).sum := by
    unfold sdm; rw [zip_self_map_mul]
  have hfst : 0 ≤ (((demean xs).zip (demean ys)).map fun p => p.2 * p.2).sum :=
    sum_zip_snd_nonneg _
  have hx : 0 ≤ ((demean xs).map fun x => x * x).sum := sum_map_mul_self_nonneg _
  calc sdm xs ys ^ 2
      ≤ (((demean xs).zip (demean ys)).map fun p => p.1 * p.1).sum
          * (((demean xs).zip (demean ys)).map fun p => p.2 * p.2).sum := h1
    _ ≤ sdm xs xs * sdm ys ys := by
        rw [hxx, hyy]
        exact mul_le_mul h2 h3 hfst hx

lemma abs_pearson_le_one (xs ys : List ℝ) : |pearson Real.sqrt xs ys| ≤ 1 := by
  unfold pearson
  have hc2 : sdm xs ys ^ 2 ≤ sdm xs xs * sdm ys ys := sdm_sq_le xs ys
  rcases eq_or_lt_of_le (Real.sqrt_nonneg (sdm xs xs * sdm ys ys)) with h0 | hpos
  · rw [← h0, div_zero, abs_zero]
    exact zero_le_one
  · rw [abs_div, abs_of_nonneg (Real.sqrt_nonneg _), div_le_one hpos]
    calc |sdm xs ys| = Real.sqrt (sdm xs ys ^ 2) := (Real.sqrt_sq_eq_abs _).symm
      _ ≤ Real.sqrt (sdm xs xs * sdm ys ys) := Real.sqrt_le_sqrt hc2

lemma abs_calculate_entry_le_one (fetch : String → Fetched ℝ) (symbols : List String)
    (s t : String) :
    |(calculate_correlations Real.sqrt fetch symbols).entry s t| ≤ 1 :=
  abs_pearson_le_one _ _

lemma pearson_diag (xs : List ℝ) (h : sdm xs xs ≠ 0) : pearson Real.sqrt xs xs = 1 := by
  unfold pearson
  rw [Real.sqrt_mul_self (sdm_self_nonneg xs), div_self h]

/-! ### Lemmas about the stable descending sort of leader entries -/

lemma insertLeader_perm {α : Type} [LinearOrderedField α] (e : LeaderEntry α) :
    ∀ l : List (LeaderEntry α), (insertLeader e l).Perm (e :: l) := by
  intro l
  induction l with
  | nil => exact List.Perm.refl _
  | cons f fs ih =>
    simp only [insertLeader]
    split
    · exact (ih.cons f).trans (List.Perm.swap e f fs)
    · exact List.Perm.refl _

lemma sortLeaders_perm {α : Type} [LinearOrderedField α] :
    ∀ l : List (LeaderEntry α), (sortLeaders l).Perm l := by
  intro l
  induction l with
  | nil => exact List.Perm.refl _
  | cons e es ih => exact (insertLeader_perm e (sortLeaders es)).trans (ih.cons e)

lemma length_sortLeaders {α : Type} [LinearOrderedField α] (l : List (LeaderEntry α)) :
    (sortLeaders l).length = l.length :=
  (sortLeaders_perm l).length_eq

lemma insertLeader_head {α : Type} [LinearOrderedField α] (e : LeaderEntry α) :
    ∀ (l : List (LeaderEntry α)) (y : LeaderEntry α),
      y ∈ (insertLeader e l).head? → y = e ∨ y ∈ l.head? := by
  intro l y
  cases l with
  | nil =>
    intro h
    have h' : e = y := by simpa [insertLeader] using h
    exact Or.inl h'.symm
  | cons f fs =>
    simp only [insertLeader]
    split
    · intro h
      right
      simpa using h
    · intro h
      have h' : e = y := by simpa using h
      exact Or.inl h'.symm

lemma chain'_insertLeader {α : Type} [LinearOrderedField α] (e : LeaderEntry α) :
    ∀ l : List (LeaderEntry α),
      List.Chain' (fun a b => b.leadership_score ≤ a.leadership_score) l →
      List.Chain' (fun a b => b.leadership_score ≤ a.leadership_score) (insertLeader e l) := by
  intro l
  induction l with
  | nil => intro _; simp [insertLeader]
  | cons f fs ih =>
    intro h
    rcases List.chain'_cons'.mp h with ⟨hhead, htail⟩
    simp only [insertLeader]
    split
    · rename_i hc
      refine List.chain'_cons'.mpr ⟨?_, ih htail⟩
      intro y hy
      rcases insertLeader_head e fs y hy with rfl | hy'
      · exact le_of_lt hc
      · exact hhead y hy'
    · rename_i hc
      refine List.chain'_cons'.mpr ⟨?_, h⟩
      intro y hy
      simp only [List.head?_cons, Option.mem_def, Option.some.injEq] at hy
      subst hy
      exact le_of_not_lt hc

lemma chain'_sortLeaders {α : Type} [LinearOrderedField α] (l : List (LeaderEntry α)) :
    List.Chain' (fun a b => b.leadership_score ≤ a.leadership_score) (sortLeaders l) := by
  induction l with
  | nil => simp [sortLeaders]
  | cons e es ih => exact chain'_insertLeader e (sortLeaders es) ih

lemma filter_insertLeader {α : Type} [LinearOrderedField α] (e : LeaderEntry α) (q : α) :
    ∀ l : List (LeaderEntry α),
      (insertLeader e l).filter (fun f => decide (f.leadership_score = q))
        = if e.leadership_score = q
          then e :: l.filter (fun f => decide (f.leadership_score = q))
          else l.filter (fun f => decide (f.leadership_score = q)) := by
  intro l
  induction l with
  | nil =>
    by_cases hq : e.leadership_score = q <;> simp [insertLeader, List.filter_cons, hq]
  | cons f fs ih =>
    simp only [insertLeader]
    by_cases hc : e.leadership_score < f.leadership_score
    · rw [if_pos hc, List.filter_cons, ih]
      by_cases hq : e.leadership_score = q
      · have hfq : ¬ f.leadership_score = q := by
          intro h
          rw [hq] at hc
          rw [h] at hc
          exact lt_irrefl q hc
        simp [hq, hfq, List.filter_cons]
      · by_cases hfq : f.leadership_score = q <;> simp [hq, hfq, List.filter_cons]
    · rw [if_neg hc, List.filter_cons]
      by_cases hq : e.leadership_score = q <;> simp [hq, List.filter_cons]

lemma filter_sortLeaders {α : Type} [LinearOrderedField α] (q : α) :
    ∀ l : List (LeaderEntry α),
      (sortLeaders l).filter (fun f => decide (f.leadership_score = q))
        = l.filter (fun f => decide (f.leadership_score = q)) := by
  intro l
  induction l with
  | nil => rfl
  | cons e es ih =>
    simp only [sortLeaders]
    rw [filter_insertLeader, ih, List.filter_cons]
    by_cases hq : e.leadership_score = q <;> simp [hq]

/-! ### Lemmas about `concatAll`, counting and parity -/

lemma length_concatAll {β : Type} :
    ∀ ls : List (List β), (concatAll ls).length = (ls.map List.length).sum := by
  intro ls
  induction ls with
  | nil => rfl
  | cons l ls ih => simp [concatAll, ih]

lemma mem_concatAll {β : Type} {x : β} :
    ∀ {ls : List (List β)}, x ∈ concatAll ls ↔ ∃ l ∈ ls, x ∈ l := by
  intro ls
  induction ls with
  | nil => simp [concatAll]
  | cons l ls ih => simp [concatAll, List.mem_append, ih]

lemma filter_concatAll {β : Type} (p : β → Bool) :
    ∀ ls : List (List β), (concatAll ls).filter p = concatAll (ls.map fun l => l.filter p) := by
  intro ls
  induction ls with
  | nil => rfl
  | cons l ls ih => simp [concatAll, List.filter_append, ih]

lemma sum_map_add_nat {β : Type} (f g : β → ℕ) :
    ∀ l : List β, (l.map fun x => f x + g x).sum = (l.map f).sum + (l.map g).sum := by
  intro l
  induction l with
  | nil => rfl
  | cons x xs ih => simp only [List.map_cons, List.sum_cons, ih]; omega

lemma sum_map_ite {β : Type} (P : β → Prop) [DecidablePred P] :
    ∀ l : List β, (l.map fun x => if P x then 1 else 0).sum
      = (l.filter fun x => decide (P x)).length := by
  intro l
  induction l with
  | nil => rfl
  | cons x xs ih =>
    by_cases h : P x <;> simp [List.filter_cons, h, ih] <;> omega

lemma length_filter_eq_one_of_nodup {l : List String} {b : String}
    (hnd : l.Nodup) (hb : b ∈ l) :
    (l.filter fun t => decide (t = b)).length = 1 := by
  induction l with
  | nil => simp at hb
  | cons x xs ih =>
    rcases List.mem_cons.mp hb with rfl | hx
    · have hbx : b ∉ xs := (List.nodup_cons.mp hnd).1
      have hfil : xs.filter (fun t => decide (t = b)) = [] := by
        rw [List.filter_eq_nil_iff]
        intro t ht
        simp only [decide_eq_true_eq]
        rintro rfl
        exact hbx ht
      simp [List.filter_cons, hfil]
    · have hxb : ¬ x = b := by
        rintro rfl
        exact (List.nodup_cons.mp hnd).1 hx
      simp only [List.filter_cons, decide_eq_true_eq, if_neg hxb]
      exact ih (List.nodup_cons.mp hnd).2 hx

lemma even_symm_pair_count (Q : String → String → Prop) [inst : ∀ s t, Decidable (Q s t)]
    (hsym : ∀ s t, Q s t ↔ Q t s) (hirr : ∀ s, ¬Q s s) :
    ∀ l : List String,
      Even ((l.map fun s => (l.filter fun t => decide (Q s t)).length).sum) := by
  intro l
  induction l with
  | nil => simp
  | cons a rest ih =>
    have ha : ((a :: rest).filter fun t => decide (Q a t)).length
        = (rest.filter fun t => decide (Q a t)).length := by
      rw [List.filter_cons]
      simp [hirr a]
    have hs : ∀ s, ((a :: rest).filter fun t => decide (Q s t)).length
        = (if Q s a then 1 else 0) + (rest.filter fun t => decide (Q s t)).length := by
      intro s
      rw [List.filter_cons]
      by_cases h : Q s a <;> simp [h] <;> omega
    have hmap : (rest.map fun s => ((a :: rest).filter fun t => decide (Q s t)).length)
        = rest.map fun s =>
            (if Q s a then 1 else 0) + (rest.filter fun t => decide (Q s t)).length :=
      List.map_congr_left fun s _ => hs s
    have hsw : (rest.filter fun s => decide (Q s a)) = rest.filter fun t => decide (Q a t) :=
      List.filter_congr fun s _ => decide_eq_decide.mpr (hsym s a)
    simp only [List.map_cons, List.sum_cons, ha, hmap]
    rw [sum_map_add_nat, sum_map_ite (fun s => Q s a), hsw]
    obtain ⟨k, hk⟩ := ih
    exact ⟨(rest.filter fun t => decide (Q a t)).length + k, by omega⟩

/-! ### Lemmas about the network edge list -/

lemma mem_edgesOf {α : Type} [LinearOrderedField α] {thr : α} {M : CorrMatrix α}
    {e : NetEdge α} :
    e ∈ edgesOf thr M
      ↔ ∃ s, s ∈ M.cols ∧ ∃ t, t ∈ M.cols ∧ t ≠ s ∧ thr < |M.entry s t| ∧
          e = { source := s, target := t, weight := |M.entry s t|,
                type := if 0 < M.entry s t then "positive" else "negative" } := by
  unfold edgesOf
  rw [mem_concatAll]
  constructor
  · rintro ⟨l, hl, hel⟩
    obtain ⟨s, hs, rfl⟩ := List.mem_map.mp hl
    obtain ⟨t, ht, rfl⟩ := List.mem_map.mp hel
    obtain ⟨htc, hcond⟩ := List.mem_filter.mp ht
    rw [decide_eq_true_eq] at hcond
    exact ⟨s, hs, t, htc, hcond.1, hcond.2, rfl⟩
  · rintro ⟨s, hs, t, ht, hne, hthr, rfl⟩
    refine ⟨_, List.mem_map.mpr ⟨s, hs, rfl⟩, ?_⟩
    exact List.mem_map.mpr ⟨t, List.mem_filter.mpr ⟨ht, by simp [hne, hthr]⟩, rfl⟩

lemma even_length_edgesOf {α : Type} [LinearOrderedField α] (thr : α) (M : CorrMatrix α)
    (hsym : ∀ s t, M.entry s t = M.entry t s) :
    Even (edgesOf thr M).length := by
  unfold edgesOf
  rw [length_concatAll, List.map_map]
  have hcomp : (List.length ∘ fun s =>
      (M.cols.filter fun t => decide (t ≠ s ∧ thr < |M.entry s t|)).map fun t =>
        ({ source := s, target := t, weight := |M.entry s t|,
           type := if 0 < M.entry s t then "positive" else "negative" } : NetEdge α))
      = fun s => (M.cols.filter fun t => decide (t ≠ s ∧ thr < |M.entry s t|)).length := by
    funext s
    simp
  rw [hcomp]
  refine even_symm_pair_count (fun s t => t ≠ s ∧ thr < |M.entry s t|) ?_ ?_ M.cols
  · intro s t
    show (t ≠ s ∧ thr < |M.entry s t|) ↔ (s ≠ t ∧ thr < |M.entry t s|)
    rw [hsym s t]
    exact and_congr_left fun _ => ne_comm
  · intro s h
    exact h.1 rfl

lemma edges_count_one {α : Type} [LinearOrderedField α] (thr : α) (M : CorrMatrix α)
    (hnd : M.cols.Nodup) {a b : String} (ha : a ∈ M.cols) (hb : b ∈ M.cols)
    (hab : a ≠ b) (hq : thr < |M.entry a b|) :
    ((edgesOf thr M).filter fun e => decide (e.source = a ∧ e.target = b)).length = 1 := by
  unfold edgesOf
  rw [filter_concatAll, List.map_map, length_concatAll, List.map_map]
  have hterm : ∀ s ∈ M.cols,
      (List.length ∘ (fun l => List.filter (fun e => decide (e.source = a ∧ e.target = b)) l) ∘
        fun s => (M.cols.filter fun t => decide (t ≠ s ∧ thr < |M.entry s t|)).map fun t =>
          ({ source := s, target := t, weight := |M.entry s t|,
             type := if 0 < M.entry s t then "positive" else "negative" } : NetEdge α)) s
        = if s = a then 1 else 0 := by
    intro s _
    simp only [Function.comp_apply]
    by_cases hsa : s = a
    · subst hsa
      rw [if_pos rfl, List.filter_map]
      rw [List.length_map]
      have hcong : (M.cols.filter fun t => decide (t ≠ s ∧ thr < |M.entry s t|)).filter
            ((fun e : NetEdge α => decide (e.source = s ∧ e.target = b)) ∘ fun t =>
              ({ source := s, target := t, weight := |M.entry s t|,
                 type := if 0 < M.entry s t then "positive" else "negative" } : NetEdge α))
          = (M.cols.filter fun t => decide (t ≠ s ∧ thr < |M.entry s t|)).filter
              fun t => decide (t = b) := by
        apply List.filter_congr
        intro t _
        simp
      rw [hcong]
      apply length_filter_eq_one_of_nodup (hnd.filter _)
      exact List.mem_filter.mpr ⟨hb, by simp [hab.symm, hq]⟩
    · rw [if_neg hsa]
      rw [List.length_eq_zero]
      rw [List.filter_eq_nil_iff]
      intro e he
      obtain ⟨t, _, rfl⟩ := List.mem_map.mp he
      simp [hsa]
  rw [List.map_congr_left hterm, sum_map_ite (fun s => s = a)]
  exact length_filter_eq_one_of_nodup hnd ha

/-! ### Claim theorems -/

/-- C1 (amended): every matrix returned by `calculate_correlations` is
symmetric, and the diagonal entry of a column equals `1.0` whenever that
column's aligned return series has a nonzero sum of squared deviations
(nonzero variance).  Where that sum is zero, pandas produces `NaN` on
the diagonal (modelled here as `0`), not `1.0`, so the unconditional
diagonal part of the original claim fails. -/
theorem C1_matrix_symmetric_diag_one (fetch : String → Fetched ℝ) (symbols : List String) :
    (∀ a b, (calculate_correlations Real.sqrt fetch symbols).entry a b
        = (calculate_correlations Real.sqrt fetch symbols).entry b a)
      ∧ ∀ s, sdm (lookupD (returnsTable fetch symbols) s)
            (lookupD (returnsTable fetch symbols) s) ≠ 0 →
          (calculate_correlations Real.sqrt fetch symbols).entry s s = 1 := by
  refine ⟨fun a b => calculate_entry_symm Real.sqrt fetch symbols a b, fun s h => ?_⟩
  rw [calculate_entry]
  exact pearson_diag _ h

/-- C1 witness: for a single symbol with prices `[1, 2, 3]` the aligned
returns are `[1, 1/2]`, the squared-deviation sum is nonzero, and the
diagonal entry is exactly `1`. -/
theorem C1_matrix_symmetric_diag_one_witness :
    (calculate_correlations Real.sqrt (fun _ => Fetched.ok [1, 2, 3]) ["A"]).entry "A" "A"
      = 1 := by
  apply (C1_matrix_symmetric_diag_one (fun _ => Fetched.ok [1, 2, 3]) ["A"]).2 "A"
  have h : lookupD (returnsTable (fun _ => Fetched.ok ([1, 2, 3] : List ℝ)) ["A"]) "A"
      = [1, 1 / 2] := by
    simp [returnsTable, priceData, dedupKeys, minLen, lookupD, pctChange]
    norm_num
  rw [h]
  norm_num [sdm, demean, listMean]

/-- C1 counterexample: a symbol with constant prices `[1, 1, 1]` has
constant (zero) returns; pandas computes `0/0` for its diagonal entry
and yields `NaN`, not `1.0` (in this embedding the entry evaluates to
`0`).  The symbol is a column of the returned matrix, so the claim
"every diagonal entry equals 1.0" fails on this input. -/
theorem C1_matrix_symmetric_diag_one_counterexample :
    (calculate_correlations Real.sqrt (fun _ => Fetched.ok [1, 1, 1]) ["A"]).cols = ["A"]
      ∧ (calculate_correlations Real.sqrt (fun _ => Fetched.ok [1, 1, 1]) ["A"]).entry "A" "A"
          ≠ 1 := by
  refine ⟨rfl, ?_⟩
  have h0 : (calculate_correlations Real.sqrt (fun _ => Fetched.ok [1, 1, 1]) ["A"]).entry
      "A" "A" = 0 := by
    rw [calculate_entry]
    have h : lookupD (returnsTable (fun _ => Fetched.ok ([1, 1, 1] : List ℝ)) ["A"]) "A"
        = [0, 0] := by
      simp [returnsTable, priceData, dedupKeys, minLen, lookupD, pctChange]
    rw [h]
    simp [pearson, sdm, demean, listMean]
  rw [h0]
  norm_num

/-- C2 (amended): the matrix returned by `calculate_correlations` is
empty exactly when no symbol has usable data.  With exactly one usable
symbol the code reaches `returns_data.corr()` and returns a 1×1 matrix,
which is not empty, contradicting the original "fewer than 2" claim. -/
theorem C2_empty_iff_no_usable {α : Type} [LinearOrderedField α] (sqrtFn : α → α)
    (fetch : String → Fetched α) (symbols : List String) :
    (calculate_correlations sqrtFn fetch symbols).cols = []
      ↔ ∀ s ∈ symbols, usable (fetch s) = false :=
  calculate_cols_eq_nil_iff sqrtFn fetch symbols

/-- C2 witness: with every fetch raising, the matrix is empty. -/
theorem C2_empty_iff_no_usable_witness :
    (calculate_correlations (id : ℚ → ℚ) (fun _ => Fetched.raises) ["B"]).cols = []
      ↔ ∀ s ∈ ["B"], usable ((fun _ => (Fetched.raises : Fetched ℚ)) s) = false :=
  C2_empty_iff_no_usable id (fun _ => Fetched.raises) ["B"]

/-- C2 counterexample: exactly one symbol (`"A"`) fetches successfully
with non-empty data, yet the returned matrix has column list `["A"]` —
it is a 1×1 matrix, not the empty matrix required by the claim. -/
theorem C2_empty_iff_no_usable_counterexample :
    (calculate_correlations Real.sqrt
        (fun s => if s = "A" then Fetched.ok [1, 2] else Fetched.raises) ["A"]).cols = ["A"]
      ∧ (calculate_correlations Real.sqrt
          (fun s => if s = "A" then Fetched.ok [1, 2] else Fetched.raises) ["A"]).cols
          ≠ [] := by
  have h : (calculate_correlations Real.sqrt
      (fun s => if s = "A" then Fetched.ok [1, 2] else Fetched.raises) ["A"]).cols
      = ["A"] := rfl
  exact ⟨h, by rw [h]; simp⟩

/-- C3: `calculate_correlations` is total over arbitrary fetch outcomes
(a raising fetch is the `Fetched.raises` value, handled like an empty
frame): the columns of the result are exactly the usable symbols, in
order, so a raising symbol is excluded while the rest are processed;
and when every symbol fails the result is the empty matrix. -/
theorem C3_fetch_failures_skipped {α : Type} [LinearOrderedField α] (sqrtFn : α → α)
    (fetch : String → Fetched α) (symbols : List String) :
    (calculate_correlations sqrtFn fetch symbols).cols
        = (dedupKeys symbols).filter (fun s => usable (fetch s))
      ∧ ((∀ s ∈ symbols, usable (fetch s) = false) →
          (calculate_correlations sqrtFn fetch symbols).cols = []) :=
  ⟨calculate_cols sqrtFn fetch symbols,
    fun h => (calculate_cols_eq_nil_iff sqrtFn fetch symbols).mpr h⟩

/-- C3 witness: a batch where one symbol raises and one succeeds keeps
exactly the successful one; a batch where everything raises gives the
empty matrix. -/
theorem C3_fetch_failures_skipped_witness :
    (calculate_correlations (id : ℚ → ℚ)
        (fun s => if s = "B" then Fetched.ok [1, 2] else Fetched.raises) ["A", "B"]).cols
        = (dedupKeys ["A", "B"]).filter
            (fun s => usable (if s = "B" then Fetched.ok ([1, 2] : List ℚ) else Fetched.raises))
      ∧ (calculate_correlations (id : ℚ → ℚ) (fun _ => Fetched.raises) ["A", "B"]).cols
          = [] :=
  ⟨(C3_fetch_failures_skipped (id : ℚ → ℚ)
      (fun s => if s = "B" then Fetched.ok [1, 2] else Fetched.raises) ["A", "B"]).1,
    (C3_fetch_failures_skipped (id : ℚ → ℚ) (fun _ => Fetched.raises) ["A", "B"]).2
      (by intro s _; rfl)⟩

/-- C5: `identify_leaders` returns one record per column; the output is
sorted by non-increasing `leadership_score`; it is a permutation of the
per-column records, and entries of any given score keep their original
column order (stability); the empty matrix yields the empty list. -/
theorem C5_identify_leaders_sorted {α : Type} [LinearOrderedField α] (thr : α)
    (M : CorrMatrix α) :
    (identify_leaders thr M).length = M.cols.length
      ∧ List.Chain' (fun a b => b.leadership_score ≤ a.leadership_score)
          (identify_leaders thr M)
      ∧ (identify_leaders thr M).Perm (preLeaders thr M)
      ∧ (∀ q : α, (identify_leaders thr M).filter (fun e => decide (e.leadership_score = q))
            = (preLeaders thr M).filter (fun e => decide (e.leadership_score = q)))
      ∧ (M.cols = [] → identify_leaders thr M = []) := by
  refine ⟨?_, chain'_sortLeaders _, sortLeaders_perm _, fun q => filter_sortLeaders q _, ?_⟩
  · rw [identify_leaders, length_sortLeaders, preLeaders, List.length_map]
  · intro h
    rw [identify_leaders, preLeaders, h]
    rfl

/-- C5 witness: on a concrete 2×2 matrix the output has length 2 and is
sorted non-increasingly. -/
theorem C5_identify_leaders_sorted_witness :
    (identify_leaders ((3 : ℚ) / 10) ⟨["A", "B"], fun _ _ => 1 / 2⟩).length = 2
      ∧ List.Chain' (fun a b => b.leadership_score ≤ a.leadership_score)
          (identify_leaders ((3 : ℚ) / 10) ⟨["A", "B"], fun _ _ => 1 / 2⟩) :=
  ⟨((C5_identify_leaders_sorted ((3 : ℚ) / 10) ⟨["A", "B"], fun _ _ => 1 / 2⟩).1).trans rfl,
    (C5_identify_leaders_sorted ((3 : ℚ) / 10) ⟨["A", "B"], fun _ _ => 1 / 2⟩).2.1⟩

/-- C6: `detect_spillover` returns the structured error value
`Données insuffisantes` — it does not raise — whenever the computed
matrix is empty or does not contain the target symbol. -/
theorem C6_spillover_insufficient {α : Type} [LinearOrderedField α] (sqrtFn : α → α)
    (thr : α) (fetch : String → Fetched α) (symbol : String) (all_symbols : List String)
    (h : (calculate_correlations sqrtFn fetch all_symbols).cols = []
        ∨ symbol ∉ (calculate_correlations sqrtFn fetch all_symbols).cols) :
    detect_spillover sqrtFn thr fetch symbol all_symbols
      = .error "Données insuffisantes" := by
  unfold detect_spillover
  rw [if_pos h]

/-- C6 witness: a universe where every fetch fails gives the empty
matrix and the insufficient-data error. -/
theorem C6_spillover_insufficient_witness :
    detect_spillover (id : ℚ → ℚ) (3 / 10) (fun _ => Fetched.raises) "X" ["X"]
      = .error "Données insuffisantes" :=
  C6_spillover_insufficient id (3 / 10) (fun _ => Fetched.raises) "X" ["X"] (Or.inl rfl)

/-- C9: when the computed matrix is empty, `analyze_market_regime`
returns the structured insufficient-data error value (the intent of
source line 236, whose string literal is broken by an unescaped
apostrophe) rather than a correlation analysis. -/
theorem C9_regime_error_on_empty {α : Type} [LinearOrderedField α] (sqrtFn : α → α)
    (fetch : String → Fetched α) (symbols : List String)
    (h : (calculate_correlations sqrtFn fetch symbols).cols = []) :
    analyze_market_regime sqrtFn fetch symbols
      = .error "Données insuffisantes pour l\x27analyse de régime" := by
  unfold analyze_market_regime
  rw [if_pos h]

/-- C9 witness: every fetch raising gives the empty matrix and the
error result. -/
theorem C9_regime_error_on_empty_witness :
    analyze_market_regime (id : ℚ → ℚ) (fun _ => Fetched.raises) ["A", "B"]
      = .error "Données insuffisantes pour l\x27analyse de régime" :=
  C9_regime_error_on_empty id (fun _ => Fetched.raises) ["A", "B"] rfl

/-- C10: every record produced by `identify_leaders` from a matrix with
at least two columns satisfies `min ≤ avg ≤ max`, its leadership score
dominates `|avg|`, and the score lies in `[0, 1]` when every entry of
the matrix lies in `[-1, 1]`. -/
theorem C10_leader_entry_bounds {α : Type} [LinearOrderedField α] (thr : α)
    (M : CorrMatrix α) (hcols : 2 ≤ M.cols.length)
    (hent : ∀ s t, s ∈ M.cols → t ∈ M.cols → |M.entry s t| ≤ 1) :
    ∀ e ∈ identify_leaders thr M,
      e.min_correlation ≤ e.avg_correlation
        ∧ e.avg_correlation ≤ e.max_correlation
        ∧ |e.avg_correlation| ≤ e.leadership_score
        ∧ 0 ≤ e.leadership_score ∧ e.leadership_score ≤ 1 := by
  intro e he
  have hpre : e ∈ preLeaders thr M :=
    ((sortLeaders_perm (preLeaders thr M)).mem_iff).mp he
  obtain ⟨s, hs, rfl⟩ := List.mem_map.mp hpre
  have habs : ∀ y ∈ ((M.cols.filter fun t => t ≠ s).map fun t => M.entry t s).map
      (fun x => |x|), 0 ≤ y ∧ y ≤ 1 := by
    intro y hy
    obtain ⟨x, hx, rfl⟩ := List.mem_map.mp hy
    obtain ⟨t, ht, rfl⟩ := List.mem_map.mp hx
    have htc : t ∈ M.cols := (List.mem_filter.mp ht).1
    exact ⟨abs_nonneg _, hent t s htc hs⟩
  refine ⟨?_, ?_, ?_, ?_, ?_⟩
  · show listMin ((M.cols.filter fun t => t ≠ s).map fun t => M.entry t s)
      ≤ listMean ((M.cols.filter fun t => t ≠ s).map fun t => M.entry t s)
    rcases eq_or_ne ((M.cols.filter fun t => t ≠ s).map fun t => M.entry t s) [] with h0 | h0
    · rw [h0]
      simp [listMin, listMean]
    · exact le_listMean h0 fun x hx => listMin_le hx
  · show listMean ((M.cols.filter fun t => t ≠ s).map fun t => M.entry t s)
      ≤ listMax ((M.cols.filter fun t => t ≠ s).map fun t => M.entry t s)
    rcases eq_or_ne ((M.cols.filter fun t => t ≠ s).map fun t => M.entry t s) [] with h0 | h0
    · rw [h0]
      simp [listMax, listMean]
    · exact listMean_le h0 fun x hx => le_listMax hx
  · exact abs_listMean_le _
  · exact listMean_nonneg fun y hy => (habs y hy).1
  · show listMean (((M.cols.filter fun t => t ≠ s).map fun t => M.entry t s).map
        fun x => |x|) ≤ 1
    rcases eq_or_ne (((M.cols.filter fun t => t ≠ s).map fun t => M.entry t s).map
        fun x => |x|) [] with h0 | h0
    · rw [h0, listMean_nil]
      exact zero_le_one
    · exact listMean_le h0 fun y hy => (habs y hy).2

/-- C10 witness: on a concrete 2×2 matrix with all entries `1/2`, the
record of column `"A"` satisfies all the bounds. -/
theorem C10_leader_entry_bounds_witness :
    0 ≤ (leaderOf ((3 : ℚ) / 10) ⟨["A", "B"], fun _ _ => 1 / 2⟩ "A").leadership_score
      ∧ (leaderOf ((3 : ℚ) / 10) ⟨["A", "B"], fun _ _ => 1 / 2⟩ "A").leadership_score ≤ 1 :=
  ⟨(C10_leader_entry_bounds ((3 : ℚ) / 10) ⟨["A", "B"], fun _ _ => 1 / 2⟩ (by decide)
      (fun s t _ _ => by rw [abs_of_nonneg (by norm_num : (0 : ℚ) ≤ 1 / 2)]; norm_num) (leaderOf ((3 : ℚ) / 10) ⟨["A", "B"], fun _ _ => 1 / 2⟩ "A")
      (((sortLeaders_perm (preLeaders ((3 : ℚ) / 10) ⟨["A", "B"], fun _ _ => 1 / 2⟩)).mem_iff).mpr
        (List.mem_map.mpr ⟨"A", by simp, rfl⟩))).2.2.2.1,
    (C10_leader_entry_bounds ((3 : ℚ) / 10) ⟨["A", "B"], fun _ _ => 1 / 2⟩ (by decide)
      (fun s t _ _ => by rw [abs_of_nonneg (by norm_num : (0 : ℚ) ≤ 1 / 2)]; norm_num) (leaderOf ((3 : ℚ) / 10) ⟨["A", "B"], fun _ _ => 1 / 2⟩ "A")
      (((sortLeaders_perm (preLeaders ((3 : ℚ) / 10) ⟨["A", "B"], fun _ _ => 1 / 2⟩)).mem_iff).mpr
        (List.mem_map.mpr ⟨"A", by simp, rfl⟩))).2.2.2.2⟩

/-! ### Regime classification lemmas and claim C8 -/

lemma regimeOf_fields {α : Type} [LinearOrderedField α] (sqrtFn : α → α) (n : ℕ)
    (M : CorrMatrix α) :
    (regimeOf sqrtFn n M).avg_correlation = listMean (upperTri M)
      ∧ (regimeOf sqrtFn n M).regime
          = (if 7 / 10 < listMean (upperTri M) then "high_correlation"
             else if 4 / 10 < listMean (upperTri M) then "moderate_correlation"
             else "low_correlation") := by
  unfold regimeOf
  by_cases h1 : 7 / 10 < listMean (upperTri M)
  · rw [if_pos h1, if_pos h1]
    exact ⟨rfl, rfl⟩
  · rw [if_neg h1, if_neg h1]
    by_cases h2 : 4 / 10 < listMean (upperTri M)
    · rw [if_pos h2, if_pos h2]
      exact ⟨rfl, rfl⟩
    · rw [if_neg h2, if_neg h2]
      exact ⟨rfl, rfl⟩

/-- C8 (amended): whenever `analyze_market_regime` returns a summary,
its `avg_correlation` is the mean of the strictly-upper-triangular
entries of the computed matrix and its regime label follows the
`0.7`/`0.4` threshold scheme; moreover, when the matrix has at least
one strictly-upper-triangular entry (at least two columns) and all its
off-diagonal correlations equal `0.8`, the regime is
`high_correlation`.  For a 1×1 matrix the 0.8-premise holds vacuously
but the mean of the empty upper triangle is `NaN` (modelled `0`), so
the original unrestricted claim fails. -/
theorem C8_regime_classification {α : Type} [LinearOrderedField α] (sqrtFn : α → α)
    (fetch : String → Fetched α) (symbols : List String) (r : RegimeSummary α)
    (h : analyze_market_regime sqrtFn fetch symbols = .ok r) :
    r.avg_correlation = listMean (upperTri (calculate_correlations sqrtFn fetch symbols))
      ∧ r.regime
          = (if 7 / 10 < listMean (upperTri (calculate_correlations sqrtFn fetch symbols))
             then "high_correlation"
             else if 4 / 10 <
                listMean (upperTri (calculate_correlations sqrtFn fetch symbols))
             then "moderate_correlation"
             else "low_correlation")
      ∧ (upperTri (calculate_correlations sqrtFn fetch symbols) ≠ [] →
          (∀ x ∈ upperTri (calculate_correlations sqrtFn fetch symbols), x = 8 / 10) →
          r.regime = "high_correlation") := by
  unfold analyze_market_regime at h
  by_cases hc : (calculate_correlations sqrtFn fetch symbols).cols = []
  · rw [if_pos hc] at h
    exact absurd h (by simp)
  · rw [if_neg hc] at h
    have hr : r = regimeOf sqrtFn symbols.length (calculate_correlations sqrtFn fetch symbols) :=
      (Except.ok.injEq _ _ |>.mp h).symm
    subst hr
    obtain ⟨h1, h2⟩ := regimeOf_fields sqrtFn symbols.length
      (calculate_correlations sqrtFn fetch symbols)
    refine ⟨h1, h2, fun hne hall => ?_⟩
    have hmean : listMean (upperTri (calculate_correlations sqrtFn fetch symbols)) = 8 / 10 :=
      listMean_const hne hall
    rw [h2, hmean, if_pos (by norm_num)]

/-- C8 witness: a two-symbol universe whose fetches both succeed
produces a summary whose `avg_correlation` is the upper-triangle
mean. -/
theorem C8_regime_classification_witness :
    (regimeOf (id : ℚ → ℚ) 2
        (calculate_correlations id (fun _ => Fetched.ok [1, 2]) ["A", "B"])).avg_correlation
      = listMean (upperTri
          (calculate_correlations (id : ℚ → ℚ) (fun _ => Fetched.ok [1, 2]) ["A", "B"])) :=
  (C8_regime_classification id (fun _ => Fetched.ok [1, 2]) ["A", "B"] _ rfl).1

/-- C8 counterexample: with a single usable symbol the matrix is 1×1,
all off-diagonal entries vacuously equal `0.8`, yet the classified
regime is `low_correlation` (the mean of the empty upper triangle is
`NaN` in pandas, `0` here, and both threshold comparisons fail), not
`high_correlation`. -/
theorem C8_regime_classification_counterexample :
    (∀ x ∈ upperTri (calculate_correlations Real.sqrt (fun _ => Fetched.ok [1, 2, 4]) ["A"]),
        x = 8 / 10)
      ∧ analyze_market_regime Real.sqrt (fun _ => Fetched.ok [1, 2, 4]) ["A"]
          = .ok (regimeOf Real.sqrt 1
              (calculate_correlations Real.sqrt (fun _ => Fetched.ok [1, 2, 4]) ["A"]))
      ∧ (regimeOf Real.sqrt 1
          (calculate_correlations Real.sqrt (fun _ => Fetched.ok [1, 2, 4]) ["A"])).regime
          = "low_correlation" := by
  have hupper : upperTri (calculate_correlations Real.sqrt
      (fun _ => Fetched.ok [1, 2, 4]) ["A"]) = [] := rfl
  refine ⟨?_, rfl, ?_⟩
  · rw [hupper]
    simp
  · rw [(regimeOf_fields Real.sqrt 1 _).2, hupper, listMean_nil]
    norm_num

/-! ### The two-symbol scenario of claim C4 -/

lemma c4_entry_bounds :
    999 / 1000 ≤ (calculate_correlations Real.sqrt
        (fun s => if s = "A" then Fetched.ok [100, 101, 102, 103]
          else Fetched.ok [100, 99, 98, 97]) ["A", "B"]).entry "A" "B"
      ∧ (calculate_correlations Real.sqrt
          (fun s => if s = "A" then Fetched.ok [100, 101, 102, 103]
            else Fetched.ok [100, 99, 98, 97]) ["A", "B"]).entry "A" "B" ≤ 1 := by
  have hA : lookupD (returnsTable
      (fun s => if s = "A" then Fetched.ok ([100, 101, 102, 103] : List ℝ)
        else Fetched.ok [100, 99, 98, 97]) ["A", "B"]) "A"
      = [1 / 100, 1 / 101, 1 / 102] := by
    simp [returnsTable, priceData, dedupKeys, minLen, lookupD, pctChange]
    norm_num
  have hB : lookupD (returnsTable
      (fun s => if s = "A" then Fetched.ok ([100, 101, 102, 103] : List ℝ)
        else Fetched.ok [100, 99, 98, 97]) ["A", "B"]) "B"
      = [-(1 / 100), -(1 / 99), -(1 / 98)] := by
    simp [returnsTable, priceData, dedupKeys, minLen, lookupD, pctChange]
    norm_num
  constructor
  · rw [calculate_entry, hA, hB, pearson]
    have hc : sdm ([1 / 100, 1 / 101, 1 / 102] : List ℝ) [-(1 / 100), -(1 / 99), -(1 / 98)]
        = 7499 / 374812515000 := by
      simp [sdm, demean, listMean]
      norm_num
    have haa : sdm ([1 / 100, 1 / 101, 1 / 102] : List ℝ) [1 / 100, 1 / 101, 1 / 102]
        = 7651 / 397992015000 := by
      simp [sdm, demean, listMean]
      norm_num
    have hbb : sdm ([-(1 / 100), -(1 / 99), -(1 / 98)] : List ℝ)
        [-(1 / 100), -(1 / 99), -(1 / 98)] = 7351 / 352983015000 := by
      simp [sdm, demean, listMean]
      norm_num
    rw [hc, haa, hbb]
    have hD : (0 : ℝ) < 7651 / 397992015000 * (7351 / 352983015000) := by norm_num
    have hs : Real.sqrt (7651 / 397992015000 * (7351 / 352983015000))
        ≤ 7499 / 374812515000 * (1000 / 999) := by
      rw [Real.sqrt_le_iff]
      constructor
      · norm_num
      · norm_num
    have hspos : 0 < Real.sqrt (7651 / 397992015000 * (7351 / 352983015000)) :=
      Real.sqrt_pos.mpr hD
    rw [le_div_iff hspos]
    calc (999 : ℝ) / 1000 * Real.sqrt (7651 / 397992015000 * (7351 / 352983015000))
        ≤ 999 / 1000 * (7499 / 374812515000 * (1000 / 999)) := by
          exact mul_le_mul_of_nonneg_left hs (by norm_num)
      _ = 7499 / 374812515000 := by norm_num
  · rw [calculate_entry]
    exact (abs_le.mp (abs_pearson_le_one _ _)).2

/-- C4 (amended): in the two-symbol scenario with closes
`A = [100, 101, 102, 103]` and `B = [100, 99, 98, 97]`, both return
series are decreasing (`[1/100, 1/101, 1/102]` and
`[-1/100, -1/99, -1/98]`), so the Pearson correlation of the returns is
approximately `+1.0` (within `1/1000`), not `-1.0`; `identify_leaders`
still gives both symbols a leadership score approximately `1.0`, since
the score is the mean absolute correlation. -/
theorem C4_anticorrelated_scenario :
    |(calculate_correlations Real.sqrt
        (fun s => if s = "A" then Fetched.ok [100, 101, 102, 103]
          else Fetched.ok [100, 99, 98, 97]) ["A", "B"]).entry "A" "B" - 1| ≤ 1 / 1000
      ∧ ∀ e ∈ identify_leaders ((3 : ℝ) / 10)
          (calculate_correlations Real.sqrt
            (fun s => if s = "A" then Fetched.ok [100, 101, 102, 103]
              else Fetched.ok [100, 99, 98, 97]) ["A", "B"]),
          |e.leadership_score - 1| ≤ 1 / 1000 := by
  obtain ⟨hge, hle⟩ := c4_entry_bounds
  constructor
  · rw [abs_le]
    constructor <;> linarith
  · intro e he
    have hpre : e ∈ preLeaders ((3 : ℝ) / 10)
        (calculate_correlations Real.sqrt
          (fun s => if s = "A" then Fetched.ok [100, 101, 102, 103]
            else Fetched.ok [100, 99, 98, 97]) ["A", "B"]) :=
      ((sortLeaders_perm _).mem_iff).mp he
    obtain ⟨s, hs, rfl⟩ := List.mem_map.mp hpre
    have hcols : (calculate_correlations Real.sqrt
        (fun s => if s = "A" then Fetched.ok ([100, 101, 102, 103] : List ℝ)
          else Fetched.ok [100, 99, 98, 97]) ["A", "B"]).cols = ["A", "B"] := rfl
    rw [hcols] at hs
    have hsym := calculate_entry_symm Real.sqrt
      (fun s => if s = "A" then Fetched.ok ([100, 101, 102, 103] : List ℝ)
        else Fetched.ok [100, 99, 98, 97]) ["A", "B"] "B" "A"
    have hnn : (0 : ℝ) ≤ (calculate_correlations Real.sqrt
        (fun s => if s = "A" then Fetched.ok [100, 101, 102, 103]
          else Fetched.ok [100, 99, 98, 97]) ["A", "B"]).entry "A" "B" := by linarith
    simp only [List.mem_cons, List.not_mem_nil, or_false] at hs
    rcases hs with rfl | rfl
    · have hscore : (leaderOf ((3 : ℝ) / 10)
          (calculate_correlations Real.sqrt
            (fun s => if s = "A" then Fetched.ok [100, 101, 102, 103]
              else Fetched.ok [100, 99, 98, 97]) ["A", "B"]) "A").leadership_score
          = |(calculate_correlations Real.sqrt
              (fun s => if s = "A" then Fetched.ok [100, 101, 102, 103]
                else Fetched.ok [100, 99, 98, 97]) ["A", "B"]).entry "B" "A"| := by
        simp [leaderOf, hcols, listMean]
      rw [hscore, hsym, abs_of_nonneg hnn, abs_le]
      constructor <;> linarith
    · have hscore : (leaderOf ((3 : ℝ) / 10)
          (calculate_correlations Real.sqrt
            (fun s => if s = "A" then Fetched.ok [100, 101, 102, 103]
              else Fetched.ok [100, 99, 98, 97]) ["A", "B"]) "B").leadership_score
          = |(calculate_correlations Real.sqrt
              (fun s => if s = "A" then Fetched.ok [100, 101, 102, 103]
                else Fetched.ok [100, 99, 98, 97]) ["A", "B"]).entry "A" "B"| := by
        simp [leaderOf, hcols, listMean]
      rw [hscore, abs_of_nonneg hnn, abs_le]
      constructor <;> linarith

/-- C4 witness: the leader record of column `"A"` in that scenario has
leadership score within `1/1000` of `1`. -/
theorem C4_anticorrelated_scenario_witness :
    |(leaderOf ((3 : ℝ) / 10)
        (calculate_correlations Real.sqrt
          (fun s => if s = "A" then Fetched.ok [100, 101, 102, 103]
            else Fetched.ok [100, 99, 98, 97]) ["A", "B"]) "A").leadership_score - 1|
      ≤ 1 / 1000 :=
  C4_anticorrelated_scenario.2 _
    (((sortLeaders_perm _).mem_iff).mpr (List.mem_map.mpr ⟨"A", List.mem_cons_self _ _, rfl⟩))

/-- C4 counterexample: the correlation of the two return series is not
approximately `-1.0` — it is not even within `1/2` of `-1.0`, being at
least `999/1000`. -/
theorem C4_anticorrelated_scenario_counterexample :
    ¬ |(calculate_correlations Real.sqrt
        (fun s => if s = "A" then Fetched.ok [100, 101, 102, 103]
          else Fetched.ok [100, 99, 98, 97]) ["A", "B"]).entry "A" "B" - (-1)| ≤ 1 / 2 := by
  obtain ⟨hge, _⟩ := c4_entry_bounds
  intro h
  have h2 := (abs_le.mp h).2
  linarith

/-- C7: in every network returned by `get_market_network`: no edge is a
self-loop; every edge's weight is the absolute value of the underlying
correlation and lies in `(3/10, 1]`; an edge is typed `"positive"`
exactly when the signed correlation is positive; every ordered pair of
distinct columns whose absolute correlation exceeds the threshold
contributes exactly one edge (hence each unordered pair exactly two,
one per direction), and the total edge count is even. -/
theorem C7_network_edges (fetch : String → Fetched ℝ) (symbols : List String)
    (net : Network ℝ)
    (h : get_market_network Real.sqrt fetch symbols = .ok net) :
    (∀ e ∈ net.edges,
        e.source ≠ e.target
          ∧ e.weight
              = |(calculate_correlations Real.sqrt fetch symbols).entry e.source e.target|
          ∧ 3 / 10 < e.weight ∧ e.weight ≤ 1
          ∧ (e.type = "positive"
              ↔ 0 < (calculate_correlations Real.sqrt fetch symbols).entry e.source e.target))
      ∧ (∀ a b, a ∈ (calculate_correlations Real.sqrt fetch symbols).cols →
          b ∈ (calculate_correlations Real.sqrt fetch symbols).cols → a ≠ b →
          3 / 10 < |(calculate_correlations Real.sqrt fetch symbols).entry a b| →
          (net.edges.filter fun e => decide (e.source = a ∧ e.target = b)).length = 1)
      ∧ Even net.edges.length := by
  unfold get_market_network at h
  by_cases hc : (calculate_correlations Real.sqrt fetch symbols).cols = []
  · rw [if_pos hc] at h
    exact absurd h (by simp)
  · rw [if_neg hc] at h
    have hnet : net = networkOf (3 / 10) (calculate_correlations Real.sqrt fetch symbols) :=
      ((Except.ok.injEq _ _).mp h).symm
    subst hnet
    refine ⟨?_, ?_, ?_⟩
    · intro e he
      obtain ⟨s, hs, t, ht, hne, hthr, rfl⟩ := mem_edgesOf.mp he
      refine ⟨fun hh => hne hh.symm, rfl, hthr, abs_calculate_entry_le_one fetch symbols s t, ?_⟩
      by_cases hpos : 0 < (calculate_correlations Real.sqrt fetch symbols).entry s t
      · show (if 0 < (calculate_correlations Real.sqrt fetch symbols).entry s t
            then "positive" else "negative") = "positive" ↔ _
        rw [if_pos hpos]
        simp [hpos]
      · show (if 0 < (calculate_correlations Real.sqrt fetch symbols).entry s t
            then "positive" else "negative") = "positive" ↔ _
        rw [if_neg hpos]
        simp [hpos]
    · intro a b ha hb hab hq
      exact edges_count_one (3 / 10) (calculate_correlations Real.sqrt fetch symbols)
        (calculate_cols_nodup Real.sqrt fetch symbols) ha hb hab hq
    · exact even_length_edgesOf (3 / 10) (calculate_correlations Real.sqrt fetch symbols)
        (calculate_entry_symm Real.sqrt fetch symbols)

/-- C7 witness: a concrete two-symbol network (both fetches succeed) has
an even number of edges. -/
theorem C7_network_edges_witness :
    Even (networkOf ((3 : ℝ) / 10)
      (calculate_correlations Real.sqrt (fun _ => Fetched.ok [1, 2]) ["A", "B"])).edges.length :=
  (C7_network_edges (fun _ => Fetched.ok [1, 2]) ["A", "B"] _ rfl).2.2
